import Mathlib

/-!
Shallow embedding of `specparse` (src/specparse/specparser.py) and of the
near-duplicate implementation `configurator` (src/configurator/__init__.py).

YAML documents are modelled by the inductive type `Value`; Python dicts are
ordered association lists (`List (String × Value)`), matching the insertion
order and update-in-place semantics of Python dicts.  External collaborators
(the PyYAML scalar loader, `os.path.expandvars`, the file system, the
pykwalify validator, `importlib`) are parameters of the embedded functions.
-/

namespace Specparse

/-- A parsed YAML value, the data manipulated by the configuration parser.
Mappings keep insertion order, like Python dicts. -/
inductive Value where
  | vnull : Value
  | vbool (b : Bool) : Value
  | vint (n : Int) : Value
  | vstr (s : String) : Value
  | vlist (xs : List Value) : Value
  | vdict (entries : List (String × Value)) : Value

/-- Python `d.get(key)` / `d[key]` on an insertion-ordered dict:
the value of the first (unique, in real Python dicts) entry for `key`. -/
def dictGet {α : Type} (d : List (String × α)) (key : String) : Option α :=
  match d with
  | [] => none
  | (k, v) :: rest => if k = key then some v else dictGet rest key

/-- Python `d[key] = value` on an insertion-ordered dict: update the entry in
place if the key is present, otherwise append at the end. -/
def dictSet {α : Type} (d : List (String × α)) (key : String) (value : α) :
    List (String × α) :=
  match d with
  | [] => [(key, value)]
  | (k, v) :: rest =>
    if k = key then (k, value) :: rest else (k, v) :: dictSet rest key value

/-- The guard of specparser.py:64,
`isinstance(value, dict) and isinstance(config.get(key), dict)`. -/
def bothDicts : Value → Option Value → Bool
  | .vdict _, some (.vdict _) => true
  | _, _ => false

/-- `SpecificationParser._merge_recursively` (specparser.py:61-67):
for each `(key, value)` of `changes`, in order, if both `value` and
`config.get(key)` are dicts recurse into them, otherwise assign
`config[key] = value` wholesale. -/
def mergeRecursively :
    List (String × Value) → List (String × Value) → List (String × Value)
  | config, [] => config
  | config, (key, value) :: rest =>
    match value, dictGet config key with
    | .vdict cv, some (.vdict bv) =>
      mergeRecursively (dictSet config key (.vdict (mergeRecursively bv cv)))
        rest
    | _, _ => mergeRecursively (dictSet config key value) rest
termination_by _ changes => sizeOf changes
decreasing_by
  all_goals simp_all
  all_goals omega

/-- The failure modes of the configuration-resolution pass, one constructor
per Python exception class the code can raise. -/
inductive Err where
  | malformedOverride : Err
  | keyError : Err
  | typeError : Err
  | fileNotFound : Err
  | recursionOverflow : Err
  | schemaError : Err
  | invalidCallback : Err
  | importFailure : Err
  deriving DecidableEq, Repr

/-- Python `s.split(sep)` on a single-character separator, on the character
list of the string: splits at every occurrence of `sep`, keeping empty
pieces, and yields `[s]` when `sep` does not occur. -/
def pySplit (sep : Char) : List Char → List (List Char)
  | [] => [[]]
  | c :: cs =>
    match pySplit sep cs with
    | [] => [[c]]
    | h :: t => if c = sep then [] :: h :: t else (c :: h) :: t

/-- Python `s.split(sep)` as an operation on `String`. -/
def pySplitStr (sep : Char) (s : String) : List String :=
  (pySplit sep s.data).map List.asString

/-- `path, value = path_value.split('=')` (specparser.py:103): Python splits
on EVERY `=` and tuple-unpacks into two variables, so the statement succeeds
exactly when the string contains exactly one `=`; otherwise a ValueError is
raised. -/
def splitEq (pathValue : String) : Except Err (String × String) :=
  match pySplitStr '=' pathValue with
  | [path, value] => .ok (path, value)
  | _ => .error .malformedOverride

/-- The path walk and assignment of `_make_config_changes`
(specparser.py:104-108): `assign_to = config`, then
`for part in parts[:-1]: assign_to = assign_to[part]`, finally
`assign_to[parts[-1]] = v`.  Indexing into a non-dict raises TypeError,
a missing intermediate key raises KeyError, and the final assignment requires
the target to be a dict.  (`parts` is never empty: it comes from `split`.) -/
def setPath (config : Value) (parts : List String) (v : Value) :
    Except Err Value :=
  match parts with
  | [] => .error .keyError
  | part :: rest =>
    match rest with
    | [] =>
      match config with
      | .vdict d => .ok (.vdict (dictSet d part v))
      | _ => .error .typeError
    | _ :: _ =>
      match config with
      | .vdict d =>
        match dictGet d part with
        | some child =>
          (setPath child rest v).map (fun c => .vdict (dictSet d part c))
        | none => .error .keyError
      | _ => .error .typeError

/-- Observation function: follow a path of keys through nested mappings. -/
def getPath : Value → List String → Option Value
  | v, [] => some v
  | .vdict d, part :: rest =>
    match dictGet d part with
    | some child => getPath child rest
    | none => none
  | _, _ :: _ => none

/-- One iteration of the loop of `_make_config_changes`
(specparser.py:102-108), with the external PyYAML scalar loader `yaml.load`
abstracted as the parameter `loadScalar`. -/
def makeConfigChange (loadScalar : String → Value) (config : Value)
    (pathValue : String) : Except Err Value :=
  match splitEq pathValue with
  | .ok (path, value) =>
    setPath config (pySplitStr '.' path) (loadScalar value)
  | .error e => .error e

/-- `_make_config_changes` (specparser.py:91-108): apply each
`path=value` override in the order given; the first failure aborts the
pass (Python raises out of the loop). -/
def makeConfigChanges (loadScalar : String → Value) (config : Value)
    (changes : List String) : Except Err Value :=
  match changes with
  | [] => .ok config
  | c :: rest =>
    match makeConfigChange loadScalar config c with
    | .ok config' => makeConfigChanges loadScalar config' rest
    | .error e => .error e

/-- `_read_config` (specparser.py:47-59).  `fs` models opening the file at a
path and parsing it with `yaml.load` (`none` = FileNotFoundError); `expand`
models `os.path.expandvars`; the argument `doc` is the parsed document of the
already opened file.  The Python code recurses unboundedly on cyclic parent
chains, so the embedding takes fuel; exhaustion models the interpreter's
stack overflow.  A non-mapping document makes `'parent' in config` raise
TypeError, except for strings (substring test) and lists (membership test);
when such a test succeeds, the subsequent `config['parent']` indexing raises
TypeError. -/
def readConfig (expand : String → String) (fs : String → Option Value) :
    Nat → Value → Except Err Value
  | 0, _ => .error .recursionOverflow
  | fuel + 1, doc =>
    match doc with
    | .vdict entries =>
      match dictGet entries "parent" with
      | some (.vstr p) =>
        match fs (expand p) with
        | some parentDoc =>
          match readConfig expand fs fuel parentDoc with
          | .ok (.vdict ancestor) =>
            .ok (.vdict (mergeRecursively ancestor entries))
          | .ok _ => .error .typeError
          | .error e => .error e
        | none => .error .fileNotFound
      | some _ => .error .typeError
      | none => .ok doc
    | .vstr s =>
      if List.IsInfix "parent".data s.data then .error .typeError
      else .ok (.vstr s)
    | .vlist xs =>
      if xs.any (fun x => match x with | .vstr s => s = "parent" | _ => false)
      then .error .typeError
      else .ok (.vlist xs)
    | _ => .error .typeError

/-- Accumulating decimal-digit parser for `yamlScalarModel`. -/
def parseDigits (acc : Nat) : List Char → Option Nat
  | [] => some acc
  | c :: rest =>
    if c.isDigit then parseDigits (acc * 10 + (c.toNat - 48)) rest else none

/-- A concrete stand-in for the external PyYAML scalar loader, used to
instantiate theorems at concrete inputs: `yaml.load("")` is `None`,
unsigned decimal literals parse as integers, everything else is kept as a
string. -/
def yamlScalarModel (s : String) : Value :=
  match s.data with
  | [] => .vnull
  | c :: rest =>
    match parseDigits 0 (c :: rest) with
    | some n => .vint (Int.ofNat n)
    | none => .vstr s

/-- A value stored in the argparse namespace: either an ordinary value or a
Python callable (a mode callback registered via `set_defaults(func=...)`).
`F` is the type of Python callables. -/
inductive ArgVal (F : Type) where
  | val (v : Value) : ArgVal F
  | fn (f : F) : ArgVal F

/-- The parsed argparse namespace `args.__dict__` handed to
`_prepare_config`: `config_path` and `config_changes` always exist (the
parser declares both), the remaining attributes are flag values, possibly
including the callback under the key `func`. -/
structure CmdArgs (F : Type) where
  config_path : String
  config_changes : List String
  rest : List (String × ArgVal F)

/-- An entry of the final configuration dict returned by `_prepare_config`:
a YAML-derived value, or the `cmd_args` namespace copy. -/
inductive Entry (F : Type) where
  | plain (v : Value) : Entry F
  | args (a : CmdArgs F) : Entry F

/-- Lines 75-77 of specparser.py: open the file at `config_path`, parse it
and resolve parents with `_read_config`, then apply the command-line
overrides with `_make_config_changes`. -/
def loadAndOverride (loadScalar : String → Value) (expand : String → String)
    (fs : String → Option Value) (fuel : Nat) (configPath : String)
    (changes : List String) : Except Err Value :=
  match fs configPath with
  | some doc =>
    match readConfig expand fs fuel doc with
    | .ok config => makeConfigChanges loadScalar config changes
    | .error e => .error e
  | none => .error .fileNotFound

/-- `_prepare_config` (specparser.py:69-89): copy the namespace, pop
`config_path` and `config_changes`, load and override the config, validate it
against the schema when `schema_path` is set (`schema` is `none` when it is
not; otherwise the pykwalify verdict as a predicate), copy the dict, and
attach the original namespace under the key `cmd_args`. -/
def prepareConfig {F : Type} (loadScalar : String → Value)
    (expand : String → String) (fs : String → Option Value)
    (schema : Option (Value → Bool)) (fuel : Nat) (cmdArgs : CmdArgs F) :
    Except Err (List (String × Entry F)) :=
  match loadAndOverride loadScalar expand fs fuel cmdArgs.config_path
      cmdArgs.config_changes with
  | .error e => .error e
  | .ok config =>
    match
      (match schema with
       | some check =>
         if check config then Except.ok config
         else Except.error Err.schemaError
       | none => Except.ok config : Except Err Value) with
    | .error e => .error e
    | .ok config =>
      match config with
      | .vdict entries =>
        .ok (dictSet (entries.map (fun kv => (kv.1, Entry.plain kv.2)))
          "cmd_args" (.args cmdArgs))
      | _ => .error .typeError

/-- `parse_and_run` (specparser.py:164-185) after argument parsing: obtain
the final config, look up `config['cmd_args']['func']` and dispatch.
`call f cfg` models the invocation `f(**config)`; `importAttr m a` models
`getattr(importlib.import_module(m), a)` (`none` = resolution failure). -/
def parseAndRun {F : Type} (loadScalar : String → Value)
    (expand : String → String) (fs : String → Option Value)
    (schema : Option (Value → Bool)) (fuel : Nat)
    (call : F → List (String × Entry F) → Value)
    (importAttr : String → String → Option F) (cmdArgs : CmdArgs F) :
    Except Err Value :=
  match prepareConfig loadScalar expand fs schema fuel cmdArgs with
  | .error e => .error e
  | .ok config =>
    match dictGet cmdArgs.rest "func" with
    | none => .error .keyError
    | some (.fn f) => .ok (call f config)
    | some (.val (.vstr s)) =>
      match importAttr
          (String.intercalate "." (pySplitStr '.' s).dropLast)
          ((pySplitStr '.' s).getLastD "") with
      | some f => .ok (call f config)
      | none => .error .importFailure
    | some (.val _) => .error .invalidCallback

end Specparse

namespace Configurator

open Specparse (Value Err dictGet dictSet pySplit pySplitStr)

/-- `ConfigurationParser._merge_recursively` (configurator/__init__.py:132-138),
translated independently from that file. -/
def mergeRecursively :
    List (String × Value) → List (String × Value) → List (String × Value)
  | config, [] => config
  | config, (key, value) :: rest =>
    match value, dictGet config key with
    | .vdict cv, some (.vdict bv) =>
      mergeRecursively (dictSet config key (.vdict (mergeRecursively bv cv)))
        rest
    | _, _ => mergeRecursively (dictSet config key value) rest
termination_by _ changes => sizeOf changes
decreasing_by
  all_goals simp_all
  all_goals omega

/-- `ConfigurationParser._read_config` (configurator/__init__.py:118-130),
translated independently; same conventions as `Specparse.readConfig`. -/
def readConfig (expand : String → String) (fs : String → Option Value) :
    Nat → Value → Except Err Value
  | 0, _ => .error .recursionOverflow
  | fuel + 1, doc =>
    match doc with
    | .vdict entries =>
      match dictGet entries "parent" with
      | some (.vstr p) =>
        match fs (expand p) with
        | some parentDoc =>
          match readConfig expand fs fuel parentDoc with
          | .ok (.vdict ancestor) =>
            .ok (.vdict (mergeRecursively ancestor entries))
          | .ok _ => .error .typeError
          | .error e => .error e
        | none => .error .fileNotFound
      | some _ => .error .typeError
      | none => .ok doc
    | .vstr s =>
      if List.IsInfix "parent".data s.data then .error .typeError
      else .ok (.vstr s)
    | .vlist xs =>
      if xs.any (fun x => match x with | .vstr s => s = "parent" | _ => false)
      then .error .typeError
      else .ok (.vlist xs)
    | _ => .error .typeError

/-- `path, value = path_value.split('=')` (configurator/__init__.py:174). -/
def splitEq (pathValue : String) : Except Err (String × String) :=
  match pySplitStr '=' pathValue with
  | [path, value] => .ok (path, value)
  | _ => .error .malformedOverride

/-- The path walk and assignment of `ConfigurationParser._make_config_changes`
(configurator/__init__.py:175-179). -/
def setPath (config : Value) (parts : List String) (v : Value) :
    Except Err Value :=
  match parts with
  | [] => .error .keyError
  | part :: rest =>
    match rest with
    | [] =>
      match config with
      | .vdict d => .ok (.vdict (dictSet d part v))
      | _ => .error .typeError
    | _ :: _ =>
      match config with
      | .vdict d =>
        match dictGet d part with
        | some child =>
          (setPath child rest v).map (fun c => .vdict (dictSet d part c))
        | none => .error .keyError
      | _ => .error .typeError

/-- `ConfigurationParser._make_config_changes`
(configurator/__init__.py:162-179). -/
def makeConfigChanges (loadScalar : String → Value) (config : Value)
    (changes : List String) : Except Err Value :=
  match changes with
  | [] => .ok config
  | c :: rest =>
    match
      (match splitEq c with
       | .ok (path, value) =>
         setPath config (pySplitStr '.' path) (loadScalar value)
       | .error e => .error e : Except Err Value) with
    | .ok config' => makeConfigChanges loadScalar config' rest
    | .error e => .error e

end Configurator

namespace Specparse

theorem dictGet_dictSet_self {α : Type} (d : List (String × α)) (k : String)
    (v : α) : dictGet (dictSet d k v) k = some v := by
  induction d with
  | nil => simp [dictGet, dictSet]
  | cons hd tl ih =>
    obtain ⟨k', v'⟩ := hd
    by_cases h : k' = k <;> simp [dictGet, dictSet, h, ih]

theorem dictGet_dictSet_ne {α : Type} (d : List (String × α)) (k k' : String)
    (v : α) (h : ¬ k = k') :
    dictGet (dictSet d k v) k' = dictGet d k' := by
  induction d with
  | nil => simp [dictGet, dictSet, h]
  | cons hd tl ih =>
    obtain ⟨k2, v2⟩ := hd
    by_cases h2 : k2 = k <;> simp [dictGet, dictSet, h2, ih, h]

theorem dictGet_eq_none_of_not_mem {α : Type} (d : List (String × α))
    (k : String) (h : k ∉ d.map Prod.fst) : dictGet d k = none := by
  induction d with
  | nil => rfl
  | cons hd tl ih =>
    obtain ⟨k', v'⟩ := hd
    simp only [List.map_cons, List.mem_cons] at h
    push_neg at h
    simp [dictGet, Ne.symm h.1, ih h.2]

theorem pySplit_ne_nil (sep : Char) (l : List Char) : pySplit sep l ≠ [] := by
  cases l with
  | nil => simp [pySplit]
  | cons c cs =>
    simp only [pySplit]
    split
    · simp
    · split <;> simp

theorem pySplit_of_not_mem (sep : Char) (l : List Char) (h : sep ∉ l) :
    pySplit sep l = [l] := by
  induction l with
  | nil => rfl
  | cons c cs ih =>
    rw [List.mem_cons, not_or] at h
    simp only [pySplit, ih h.2]
    simp [Ne.symm h.1]

theorem pySplit_append_sep (sep : Char) (l1 l2 : List Char) (h : sep ∉ l1) :
    pySplit sep (l1 ++ sep :: l2) = l1 :: pySplit sep l2 := by
  induction l1 with
  | nil =>
    simp only [List.nil_append, pySplit]
    cases hp : pySplit sep l2 with
    | nil => exact absurd hp (pySplit_ne_nil sep l2)
    | cons a b => simp
  | cons c cs ih =>
    rw [List.mem_cons, not_or] at h
    conv_lhs => rw [List.cons_append, pySplit]
    rw [ih h.2]
    simp [Ne.symm h.1]

theorem pySplit_length (sep : Char) (l : List Char) :
    (pySplit sep l).length = l.count sep + 1 := by
  induction l with
  | nil => simp [pySplit]
  | cons c cs ih =>
    simp only [pySplit]
    cases hp : pySplit sep cs with
    | nil => exact absurd hp (pySplit_ne_nil sep cs)
    | cons a b =>
      rw [hp] at ih
      simp only [List.length_cons] at ih
      by_cases h : c = sep
      · subst h
        simp [List.count_cons_self]
        omega
      · simp [h, List.count_cons_of_ne (Ne.symm h)]
        omega

theorem asString_data (s : String) : List.asString s.data = s := by
  cases s
  rfl

theorem mergeRecursively_nil (config : List (String × Value)) :
    mergeRecursively config [] = config :=
  mergeRecursively.eq_1 config

theorem mergeRecursively_cons_dict (config : List (String × Value))
    (key : String) (cv bv : List (String × Value))
    (rest : List (String × Value))
    (h : dictGet config key = some (.vdict bv)) :
    mergeRecursively config ((key, .vdict cv) :: rest) =
      mergeRecursively
        (dictSet config key (.vdict (mergeRecursively bv cv))) rest :=
  mergeRecursively.eq_2 config key rest cv bv h

theorem mergeRecursively_cons_flat (config : List (String × Value))
    (key : String) (value : Value) (rest : List (String × Value))
    (h : bothDicts value (dictGet config key) = false) :
    mergeRecursively config ((key, value) :: rest) =
      mergeRecursively (dictSet config key value) rest := by
  refine mergeRecursively.eq_3 config key rest value ?_
  intro cm bm hv hg
  rw [hv, hg] at h
  simp [bothDicts] at h

theorem mergeRecursively_cons_exists (config : List (String × Value))
    (key : String) (value : Value) (rest : List (String × Value)) :
    ∃ w, mergeRecursively config ((key, value) :: rest) =
      mergeRecursively (dictSet config key w) rest := by
  by_cases hb : ∃ cm bm, value = Value.vdict cm ∧
      dictGet config key = some (Value.vdict bm)
  · obtain ⟨cm, bm, rfl, hg⟩ := hb
    exact ⟨_, mergeRecursively.eq_2 config key rest cm bm hg⟩
  · refine ⟨value, mergeRecursively.eq_3 config key rest value ?_⟩
    intro cm bm hv hg
    exact hb ⟨cm, bm, hv, hg⟩

theorem dictGet_cons {α : Type} (k : String) (v : α) (tl : List (String × α))
    (key : String) :
    dictGet ((k, v) :: tl) key = if k = key then some v else dictGet tl key :=
  rfl

theorem dictGet_mergeRecursively_of_get_none
    (config changes : List (String × Value)) (key : String)
    (h : dictGet changes key = none) :
    dictGet (mergeRecursively config changes) key = dictGet config key := by
  induction changes generalizing config with
  | nil => rw [mergeRecursively_nil]
  | cons hd tl ih =>
    obtain ⟨k, v⟩ := hd
    rw [dictGet_cons] at h
    by_cases hk : k = key
    · rw [if_pos hk] at h
      exact Option.noConfusion h
    · rw [if_neg hk] at h
      obtain ⟨w, hw⟩ := mergeRecursively_cons_exists config k v tl
      rw [hw, ih _ h, dictGet_dictSet_ne _ _ _ _ hk]

theorem dictGet_mergeRecursively_of_get_dict
    (base changes : List (String × Value)) (key : String)
    (cm bm : List (String × Value))
    (hnd : (changes.map Prod.fst).Nodup)
    (hc : dictGet changes key = some (.vdict cm))
    (hb : dictGet base key = some (.vdict bm)) :
    dictGet (mergeRecursively base changes) key =
      some (.vdict (mergeRecursively bm cm)) := by
  induction changes generalizing base with
  | nil => simp [dictGet] at hc
  | cons hd tl ih =>
    obtain ⟨k, v⟩ := hd
    rw [List.map_cons, List.nodup_cons] at hnd
    rw [dictGet_cons] at hc
    by_cases hk : k = key
    · rw [if_pos hk] at hc
      injection hc with hv
      subst hv
      subst hk
      rw [mergeRecursively_cons_dict base k cm bm tl hb,
        dictGet_mergeRecursively_of_get_none _ _ _
          (dictGet_eq_none_of_not_mem tl k hnd.1),
        dictGet_dictSet_self]
    · rw [if_neg hk] at hc
      obtain ⟨w, hw⟩ := mergeRecursively_cons_exists base k v tl
      rw [hw]
      refine ih _ hnd.2 hc ?_
      rw [dictGet_dictSet_ne _ _ _ _ hk]
      exact hb

theorem dictGet_mergeRecursively_of_get_flat
    (base changes : List (String × Value)) (key : String) (cv : Value)
    (hnd : (changes.map Prod.fst).Nodup)
    (hc : dictGet changes key = some cv)
    (hflat : bothDicts cv (dictGet base key) = false) :
    dictGet (mergeRecursively base changes) key = some cv := by
  induction changes generalizing base with
  | nil => simp [dictGet] at hc
  | cons hd tl ih =>
    obtain ⟨k, v⟩ := hd
    rw [List.map_cons, List.nodup_cons] at hnd
    rw [dictGet_cons] at hc
    by_cases hk : k = key
    · rw [if_pos hk] at hc
      injection hc with hv
      subst hv
      subst hk
      rw [mergeRecursively_cons_flat base k v tl hflat,
        dictGet_mergeRecursively_of_get_none _ _ _
          (dictGet_eq_none_of_not_mem tl k hnd.1),
        dictGet_dictSet_self]
    · rw [if_neg hk] at hc
      obtain ⟨w, hw⟩ := mergeRecursively_cons_exists base k v tl
      rw [hw]
      refine ih _ hnd.2 hc ?_
      rw [dictGet_dictSet_ne _ _ _ _ hk]
      exact hflat

theorem data_asString (l : List Char) : (List.asString l).data = l := rfl

theorem setPath_single (d : List (String × Value)) (part : String)
    (v : Value) :
    setPath (.vdict d) [part] v = .ok (.vdict (dictSet d part v)) := rfl

theorem setPath_cons_cons (d : List (String × Value)) (part r : String)
    (rs : List String) (v : Value) :
    setPath (.vdict d) (part :: r :: rs) v =
      match dictGet d part with
      | some child =>
        (setPath child (r :: rs) v).map (fun c => .vdict (dictSet d part c))
      | none => .error .keyError := rfl

theorem getPath_vdict_cons (d : List (String × Value)) (part : String)
    (rest : List String) :
    getPath (.vdict d) (part :: rest) =
      match dictGet d part with
      | some child => getPath child rest
      | none => none := rfl

theorem getPath_setPath (parts : List String) (config config' v : Value)
    (h : setPath config parts v = .ok config') :
    getPath config' parts = some v := by
  induction parts generalizing config config' with
  | nil => simp [setPath] at h
  | cons part rest ih =>
    cases rest with
    | nil =>
      cases config <;> simp [setPath] at h
      subst h
      rw [getPath_vdict_cons, dictGet_dictSet_self]
      simp [getPath]
    | cons r rs =>
      cases config with
      | vdict d =>
        rw [setPath_cons_cons] at h
        cases hg : dictGet d part with
        | none =>
          rw [hg] at h
          simp at h
        | some child =>
          rw [hg] at h
          simp only [] at h
          cases hs : setPath child (r :: rs) v with
          | error e =>
            rw [hs] at h
            simp [Except.map] at h
          | ok c' =>
            rw [hs] at h
            simp only [Except.map] at h
            injection h with h
            subst h
            rw [getPath_vdict_cons, dictGet_dictSet_self]
            simp only []
            exact ih _ _ hs
      | vnull => simp [setPath] at h
      | vbool b => simp [setPath] at h
      | vint n => simp [setPath] at h
      | vstr s => simp [setPath] at h
      | vlist xs => simp [setPath] at h

theorem setPath_error_of_nonmapping (post pre : List String)
    (config w v : Value) (hpost : post ≠ [])
    (hget : getPath config pre = some w)
    (hw : ∀ d, w ≠ Value.vdict d) :
    setPath config (pre ++ post) v = .error .typeError := by
  induction pre generalizing config with
  | nil =>
    simp [getPath] at hget
    subst hget
    cases post with
    | nil => exact absurd rfl hpost
    | cons q qs =>
      cases qs with
      | nil => cases config <;> first
        | exact absurd rfl (hw _)
        | simp [setPath]
      | cons q2 qs2 => cases config <;> first
        | exact absurd rfl (hw _)
        | simp [setPath]
  | cons p pre' ih =>
    cases config with
    | vdict d =>
      rw [getPath_vdict_cons] at hget
      cases hg : dictGet d p with
      | none =>
        rw [hg] at hget
        exact Option.noConfusion hget
      | some child =>
        rw [hg] at hget
        obtain ⟨t, ts, hts⟩ : ∃ t ts, pre' ++ post = t :: ts := by
          cases hpp : pre' ++ post with
          | nil =>
            rcases List.append_eq_nil.mp hpp with ⟨-, h2⟩
            exact absurd h2 hpost
          | cons t ts => exact ⟨t, ts, rfl⟩
        have hrec := ih child hget
        rw [hts] at hrec
        rw [List.cons_append, hts, setPath_cons_cons, hg]
        simp only []
        rw [hrec]
        simp [Except.map]
    | vnull => simp [getPath] at hget
    | vbool b => simp [getPath] at hget
    | vint n => simp [getPath] at hget
    | vstr s => simp [getPath] at hget
    | vlist xs => simp [getPath] at hget

theorem makeConfigChanges_cons (loadScalar : String → Value)
    (config : Value) (c : String) (rest : List String) :
    makeConfigChanges loadScalar config (c :: rest) =
      match makeConfigChange loadScalar config c with
      | .ok config' => makeConfigChanges loadScalar config' rest
      | .error e => .error e := rfl

theorem makeConfigChanges_append (loadScalar : String → Value)
    (config : Value) (l1 l2 : List String) :
    makeConfigChanges loadScalar config (l1 ++ l2) =
      match makeConfigChanges loadScalar config l1 with
      | .ok c1 => makeConfigChanges loadScalar c1 l2
      | .error e => .error e := by
  induction l1 generalizing config with
  | nil => rfl
  | cons c cs ih =>
    rw [List.cons_append, makeConfigChanges_cons, makeConfigChanges_cons]
    cases h : makeConfigChange loadScalar config c with
    | ok c' =>
      simp only []
      exact ih c'
    | error e => simp only []

theorem splitEq_of_count_ne_one (s : String)
    (h : s.data.count '=' ≠ 1) :
    splitEq s = .error .malformedOverride := by
  have hlen : (pySplit '=' s.data).length ≠ 2 := by
    rw [pySplit_length]
    omega
  unfold splitEq pySplitStr
  cases hp : pySplit '=' s.data with
  | nil => simp
  | cons a b =>
    cases b with
    | nil => simp
    | cons a2 b2 =>
      cases b2 with
      | nil =>
        rw [hp] at hlen
        simp at hlen
      | cons a3 b3 => simp

theorem splitEq_append (l1 l2 : List Char) (h1 : '=' ∉ l1)
    (h2 : '=' ∉ l2) :
    splitEq (List.asString (l1 ++ '=' :: l2)) =
      .ok (l1.asString, l2.asString) := by
  unfold splitEq pySplitStr
  rw [data_asString, pySplit_append_sep _ _ _ h1, pySplit_of_not_mem _ _ h2]
  rfl

theorem splitEq_of_no_eq (s : String) (h : '=' ∉ s.data) :
    splitEq s = .error .malformedOverride := by
  apply splitEq_of_count_ne_one
  rw [List.count_eq_zero_of_not_mem h]
  omega

theorem readConfig_no_parent (expand : String → String)
    (fs : String → Option Value) (fuel : Nat)
    (entries : List (String × Value))
    (h : dictGet entries "parent" = none) :
    readConfig expand fs (fuel + 1) (.vdict entries) = .ok (.vdict entries) := by
  simp [readConfig, h]

theorem readConfig_parent (expand : String → String)
    (fs : String → Option Value) (fuel : Nat)
    (entries : List (String × Value)) (p : String) (parentDoc : Value)
    (ancestor : List (String × Value))
    (hp : dictGet entries "parent" = some (.vstr p))
    (hfs : fs (expand p) = some parentDoc)
    (hrec : readConfig expand fs fuel parentDoc = .ok (.vdict ancestor)) :
    readConfig expand fs (fuel + 1) (.vdict entries) =
      .ok (.vdict (mergeRecursively ancestor entries)) := by
  simp [readConfig, hp, hfs, hrec]

end Specparse

open Specparse

/-- Claim C1: merging `changes` into `base` processes each key of `changes`
as follows: when both `base[key]` and `changes[key]` are mappings the merge
recurses into them; otherwise `base[key]` becomes `changes[key]` wholesale
(lists and scalars replaced, never concatenated); and every key present only
in `base` survives the merge with its value unchanged. -/
theorem C1_merge_semantics (base changes : List (String × Value))
    (hnd : (changes.map Prod.fst).Nodup) (key : String) :
    (dictGet changes key = none →
      dictGet (mergeRecursively base changes) key = dictGet base key) ∧
    (∀ cm bm, dictGet changes key = some (.vdict cm) →
      dictGet base key = some (.vdict bm) →
      dictGet (mergeRecursively base changes) key =
        some (.vdict (mergeRecursively bm cm))) ∧
    (∀ cv, dictGet changes key = some cv →
      bothDicts cv (dictGet base key) = false →
      dictGet (mergeRecursively base changes) key = some cv) :=
  ⟨fun h => dictGet_mergeRecursively_of_get_none base changes key h,
   fun cm bm hc hb =>
     dictGet_mergeRecursively_of_get_dict base changes key cm bm hnd hc hb,
   fun cv hc hf =>
     dictGet_mergeRecursively_of_get_flat base changes key cv hnd hc hf⟩

/-- Witness for C1 at a concrete input: the key `"a"` present only in the
base survives a merge that recurses into `"b"` and adds `"c"`. -/
theorem C1_merge_semantics_witness :
    dictGet (mergeRecursively
      [("a", Value.vint 1), ("b", Value.vdict [("x", Value.vint 1)])]
      [("b", Value.vdict [("x", Value.vint 2)]), ("c", Value.vint 3)]) "a" =
    dictGet
      [("a", Value.vint 1), ("b", Value.vdict [("x", Value.vint 1)])] "a" :=
  (C1_merge_semantics
    [("a", Value.vint 1), ("b", Value.vdict [("x", Value.vint 1)])]
    [("b", Value.vdict [("x", Value.vint 2)]), ("c", Value.vint 3)]
    (by simp) "a").1 rfl

/-- Claim C3 as stated is false on the code: `"a=b=c"` is not split at the
first `=` and accepted; the tuple unpacking of `split('=')` fails instead. -/
theorem C3_counterexample :
    makeConfigChanges yamlScalarModel (.vdict [("a", Value.vint 0)])
        ["a=b=c"] = .error .malformedOverride ∧
    splitEq "a=b=c" ≠ .ok ("a", "b=c") := by
  refine ⟨rfl, fun h => ?_⟩
  rw [show splitEq "a=b=c" = Except.error Err.malformedOverride from rfl] at h
  exact Except.noConfusion h

/-- Claim C3 amended: an override string is split into a path part and a
raw-value part only when it contains exactly one `=` (and the split happens
at that occurrence); a string whose count of `=` differs from one — zero, or
two or more as in `"a=b=c"` — is rejected with the malformed-override
(ValueError) failure. -/
theorem C3_amended_split (s : String) :
    (∀ l1 l2, s.data = l1 ++ '=' :: l2 → '=' ∉ l1 → '=' ∉ l2 →
      splitEq s = .ok (l1.asString, l2.asString)) ∧
    (s.data.count '=' ≠ 1 → splitEq s = .error .malformedOverride) := by
  constructor
  · intro l1 l2 hd h1 h2
    have hs : s = List.asString (l1 ++ '=' :: l2) := by
      rw [← hd, asString_data]
    rw [hs]
    exact splitEq_append l1 l2 h1 h2
  · exact splitEq_of_count_ne_one s

/-- Witness for the amended C3 at concrete inputs. -/
theorem C3_amended_split_witness :
    splitEq "a=b" = .ok ("a", "b") ∧
    splitEq "a=b=c" = .error .malformedOverride := by
  constructor
  · exact (C3_amended_split "a=b").1 ['a'] ['b'] rfl (by decide) (by decide)
  · exact (C3_amended_split "a=b=c").2 (by decide)

/-- Claim C4: an override whose dotted path has an intermediate segment that
resolves to a non-mapping fails with the TypeError-class path-resolution
failure; the failure is fatal: the whole override pass returns it. -/
theorem C4_nonmapping_intermediate (loadScalar : String → Value)
    (config w : Value) (pv path raw : String) (pre post : List String)
    (hsplit : splitEq pv = .ok (path, raw))
    (hparts : pySplitStr '.' path = pre ++ post) (hpost : post ≠ [])
    (hget : getPath config pre = some w)
    (hw : ∀ d, w ≠ Value.vdict d) :
    makeConfigChange loadScalar config pv = .error .typeError ∧
    ∀ rest, makeConfigChanges loadScalar config (pv :: rest) =
      .error .typeError := by
  have hset := setPath_error_of_nonmapping post pre config w
    (loadScalar raw) hpost hget hw
  have hmc : makeConfigChange loadScalar config pv = .error .typeError := by
    unfold makeConfigChange
    rw [hsplit]
    simp only []
    rw [hparts]
    exact hset
  refine ⟨hmc, fun rest => ?_⟩
  rw [makeConfigChanges_cons, hmc]

/-- Witness for C4: `config = {a: 1}` and override `"a.b=2"`. -/
theorem C4_nonmapping_intermediate_witness :
    makeConfigChanges yamlScalarModel (.vdict [("a", Value.vint 1)])
      ["a.b=2"] = .error .typeError :=
  (C4_nonmapping_intermediate yamlScalarModel (.vdict [("a", Value.vint 1)])
    (Value.vint 1) "a.b=2" "a.b" "2" ["a"] ["b"] rfl rfl (by simp) rfl
    (fun d h => Value.noConfusion h)).2 []

/-- Claim C5: an override string containing no `=` fails with the
malformed-override (ValueError-class) failure; the failure aborts the
override pass, which returns the error and no partially updated state. -/
theorem C5_no_eq_malformed (loadScalar : String → Value) (config : Value)
    (s : String) (h : '=' ∉ s.data) (rest : List String) :
    makeConfigChange loadScalar config s = .error .malformedOverride ∧
    makeConfigChanges loadScalar config (s :: rest) =
      .error .malformedOverride := by
  have hs : makeConfigChange loadScalar config s =
      .error .malformedOverride := by
    unfold makeConfigChange
    rw [splitEq_of_no_eq s h]
  refine ⟨hs, ?_⟩
  rw [makeConfigChanges_cons, hs]

/-- Witness for C5: the override `"abc"` aborts the pass. -/
theorem C5_no_eq_malformed_witness :
    makeConfigChanges yamlScalarModel (.vdict [("a", Value.vint 0)])
      ["abc", "a=1"] = .error .malformedOverride :=
  (C5_no_eq_malformed yamlScalarModel (.vdict [("a", Value.vint 0)]) "abc"
    (by decide) ["a=1"]).2

/-- Claim C6: overrides are applied in the order given (appending a final
override applies it to the result of all earlier ones), and the value at the
path of the last override is the YAML parse of its raw value — later
overrides for the same path win. -/
theorem C6_later_overrides_win (loadScalar : String → Value)
    (cfg cfg1 cfg2 : Value) (cs : List String) (pv path raw : String)
    (hsplit : splitEq pv = .ok (path, raw))
    (h1 : makeConfigChanges loadScalar cfg cs = .ok cfg1)
    (h2 : makeConfigChange loadScalar cfg1 pv = .ok cfg2) :
    makeConfigChanges loadScalar cfg (cs ++ [pv]) = .ok cfg2 ∧
    getPath cfg2 (pySplitStr '.' path) = some (loadScalar raw) := by
  constructor
  · rw [makeConfigChanges_append, h1]
    simp only []
    rw [makeConfigChanges_cons, h2]
    simp only []
    rfl
  · have hset : setPath cfg1 (pySplitStr '.' path) (loadScalar raw) =
        .ok cfg2 := by
      unfold makeConfigChange at h2
      rw [hsplit] at h2
      simpa using h2
    exact getPath_setPath _ _ _ _ hset

/-- Witness for C6: `"a=1"` then `"a=2"` on `{a: 0}` ends with `a = 2`. -/
theorem C6_later_overrides_win_witness :
    makeConfigChanges yamlScalarModel (.vdict [("a", Value.vint 0)])
      (["a=1"] ++ ["a=2"]) = .ok (.vdict [("a", Value.vint 2)]) ∧
    getPath (.vdict [("a", Value.vint 2)]) (pySplitStr '.' "a") =
      some (yamlScalarModel "2") :=
  C6_later_overrides_win yamlScalarModel (.vdict [("a", Value.vint 0)])
    (.vdict [("a", Value.vint 1)]) (.vdict [("a", Value.vint 2)])
    ["a=1"] "a=2" "a" "2" rfl rfl rfl

/-- Claim C10: an override of the form `key=` (empty raw value) is accepted
by the splitter, and when the assignment succeeds the key ends up holding
the YAML parse of the empty string — null, not the empty string. -/
theorem C10_empty_value_null (loadScalar : String → Value)
    (hload : loadScalar "" = Value.vnull) (config config' : Value)
    (key : String) (hk : '=' ∉ key.data)
    (happly : makeConfigChange loadScalar config (key ++ "=") =
      .ok config') :
    splitEq (key ++ "=") = .ok (key, "") ∧
    getPath config' (pySplitStr '.' key) = some Value.vnull ∧
    getPath config' (pySplitStr '.' key) ≠ some (Value.vstr "") := by
  have hsp : splitEq (key ++ "=") = .ok (key, "") := by
    have h0 : (key ++ "=").data = key.data ++ '=' :: [] := by
      rw [String.data_append]
    have hs : key ++ "=" = List.asString (key.data ++ '=' :: []) := by
      conv_lhs => rw [← asString_data (key ++ "=")]
      rw [h0]
    rw [hs, splitEq_append key.data [] hk (by simp), asString_data]
    rfl
  have hset : setPath config (pySplitStr '.' key) Value.vnull =
      .ok config' := by
    unfold makeConfigChange at happly
    rw [hsp] at happly
    simp only [] at happly
    rw [hload] at happly
    exact happly
  have hg := getPath_setPath _ _ _ _ hset
  refine ⟨hsp, hg, ?_⟩
  rw [hg]
  intro hbad
  injection hbad with hbad
  exact Value.noConfusion hbad

/-- Witness for C10: override `"key="` on `{key: 1}` stores null. -/
theorem C10_empty_value_null_witness :
    getPath (.vdict [("key", Value.vnull)]) (pySplitStr '.' "key") =
      some Value.vnull :=
  (C10_empty_value_null yamlScalarModel rfl (.vdict [("key", Value.vint 1)])
    (.vdict [("key", Value.vnull)]) "key" (by decide) rfl).2.1

/-- Claim C2: a document carrying a `parent` key loads the document at the
environment-expanded parent path recursively and merges the ENTIRE current
raw document — `parent` key included — into the ancestor tree; on the
concrete base/child example the result is `{a: 1, b: {x: 2}}` plus a
`parent` field naming the immediate ancestor; a mapping document without a
`parent` key is returned as parsed, unchanged. -/
theorem C2_parent_inheritance (expand : String → String)
    (fs : String → Option Value) (fuel : Nat) :
    (∀ entries, dictGet entries "parent" = none →
      readConfig expand fs (fuel + 1) (.vdict entries) =
        .ok (.vdict entries)) ∧
    (∀ entries p parentDoc ancestor,
      dictGet entries "parent" = some (.vstr p) →
      fs (expand p) = some parentDoc →
      readConfig expand fs fuel parentDoc = .ok (.vdict ancestor) →
      readConfig expand fs (fuel + 1) (.vdict entries) =
        .ok (.vdict (mergeRecursively ancestor entries))) ∧
    (readConfig id
        (fun q => if q = "base.yaml"
          then some (.vdict [("a", .vint 1), ("b", .vdict [("x", .vint 1)])])
          else none) 2
        (.vdict [("parent", .vstr "base.yaml"),
                 ("b", .vdict [("x", .vint 2)])]) =
      .ok (.vdict [("a", .vint 1), ("b", .vdict [("x", .vint 2)]),
                   ("parent", .vstr "base.yaml")])) := by
  refine ⟨fun entries h => readConfig_no_parent expand fs fuel entries h,
    fun entries p parentDoc ancestor hp hfs hrec =>
      readConfig_parent expand fs fuel entries p parentDoc ancestor
        hp hfs hrec, ?_⟩
  simp [readConfig, dictGet, mergeRecursively, dictSet]

/-- Witness for C2: a parentless mapping document is returned unchanged. -/
theorem C2_parent_inheritance_witness :
    readConfig id (fun _ => none) 1 (.vdict [("a", Value.vint 1)]) =
      .ok (.vdict [("a", Value.vint 1)]) :=
  (C2_parent_inheritance id (fun _ => none) 0).1 [("a", Value.vint 1)] rfl

/-- Claim C7: on success, the returned configuration dict carries a
`cmd_args` entry holding the entire original namespace (its `config_path`
and any callback included), and it is attached only after the overrides were
applied and after schema validation (when configured) ran and passed on the
override-applied tree, which does not yet contain `cmd_args`. -/
theorem C7_cmd_args_attachment {F : Type} (loadScalar : String → Value)
    (expand : String → String) (fs : String → Option Value)
    (schema : Option (Value → Bool)) (fuel : Nat) (ca : CmdArgs F)
    (r : List (String × Entry F))
    (h : prepareConfig loadScalar expand fs schema fuel ca = .ok r) :
    ∃ t : List (String × Value),
      loadAndOverride loadScalar expand fs fuel ca.config_path
        ca.config_changes = .ok (.vdict t) ∧
      (∀ check, schema = some check → check (.vdict t) = true) ∧
      r = dictSet (t.map fun kv => (kv.1, Entry.plain kv.2)) "cmd_args"
        (.args ca) ∧
      dictGet r "cmd_args" = some (.args ca) := by
  unfold prepareConfig at h
  cases hl : loadAndOverride loadScalar expand fs fuel ca.config_path
      ca.config_changes with
  | error e =>
    rw [hl] at h
    exact Except.noConfusion h
  | ok config =>
    rw [hl] at h
    simp only [] at h
    cases schema with
    | none =>
      simp only [] at h
      cases config with
      | vdict entries =>
        simp only [] at h
        injection h with h
        refine ⟨entries, rfl, fun check hc => Option.noConfusion hc,
          h.symm, ?_⟩
        rw [← h, dictGet_dictSet_self]
      | vnull => simp at h
      | vbool b => simp at h
      | vint n => simp at h
      | vstr s => simp at h
      | vlist xs => simp at h
    | some check =>
      simp only [] at h
      cases hcheck : check config with
      | false =>
        rw [if_neg (by simp [hcheck])] at h
        exact Except.noConfusion h
      | true =>
        rw [if_pos hcheck] at h
        simp only [] at h
        cases config with
        | vdict entries =>
          simp only [] at h
          injection h with h
          refine ⟨entries, rfl, ?_, h.symm, ?_⟩
          · intro check' hc
            injection hc with hc
            rw [← hc]
            exact hcheck
          · rw [← h, dictGet_dictSet_self]
        | vnull => simp at h
        | vbool b => simp at h
        | vint n => simp at h
        | vstr s => simp at h
        | vlist xs => simp at h

/-- Witness for C7 at a concrete parse with a schema configured. -/
theorem C7_cmd_args_attachment_witness :
    dictGet
      (dictSet
        ([("a", Value.vint 2)].map fun kv => (kv.1, Entry.plain kv.2))
        "cmd_args"
        (Entry.args (⟨"c.yaml", ["a=2"], [("func", ArgVal.fn 7)]⟩ :
          CmdArgs Nat)))
      "cmd_args" =
    some (Entry.args (⟨"c.yaml", ["a=2"], [("func", ArgVal.fn 7)]⟩ :
      CmdArgs Nat)) := by
  obtain ⟨t, h1, h2, h3, h4⟩ := C7_cmd_args_attachment (F := Nat)
    yamlScalarModel id
    (fun q => if q = "c.yaml" then some (.vdict [("a", Value.vint 1)])
      else none)
    (some fun v => match v with
      | .vdict (("a", Value.vint n) :: _) => n = 2
      | _ => false)
    1 ⟨"c.yaml", ["a=2"], [("func", ArgVal.fn 7)]⟩ _ rfl
  have ht : Value.vdict t = Value.vdict [("a", Value.vint 2)] := by
    have h5 := h1.symm.trans
      (show loadAndOverride yamlScalarModel id
        (fun q => if q = "c.yaml" then some (.vdict [("a", Value.vint 1)])
          else none) 1
        (⟨"c.yaml", ["a=2"], [("func", ArgVal.fn 7)]⟩ :
          CmdArgs Nat).config_path
        (⟨"c.yaml", ["a=2"], [("func", ArgVal.fn 7)]⟩ :
          CmdArgs Nat).config_changes =
        Except.ok (Value.vdict [("a", Value.vint 2)]) from rfl)
    injection h5 with h5
  have ht2 : t = [("a", Value.vint 2)] := by
    injection ht with ht2
  rw [← ht2, ← h3]
  exact h4

/-- Claim C8: after a successful parse, `parse_and_run` inspects
`cmd_args.func`: a directly invocable value is called on the final
configuration (kwargs-unpacked); a string is resolved as a dotted module
path and the resolved callable is called the same way; any other value
fails with the ValueError-class invalid-callback error. -/
theorem C8_callback_dispatch {F : Type} (loadScalar : String → Value)
    (expand : String → String) (fs : String → Option Value)
    (schema : Option (Value → Bool)) (fuel : Nat)
    (call : F → List (String × Entry F) → Value)
    (importAttr : String → String → Option F) (ca : CmdArgs F)
    (cfg : List (String × Entry F))
    (h : prepareConfig loadScalar expand fs schema fuel ca = .ok cfg) :
    (∀ f, dictGet ca.rest "func" = some (.fn f) →
      parseAndRun loadScalar expand fs schema fuel call importAttr ca =
        .ok (call f cfg)) ∧
    (∀ s g, dictGet ca.rest "func" = some (.val (.vstr s)) →
      importAttr (String.intercalate "." (pySplitStr '.' s).dropLast)
        ((pySplitStr '.' s).getLastD "") = some g →
      parseAndRun loadScalar expand fs schema fuel call importAttr ca =
        .ok (call g cfg)) ∧
    (∀ v, dictGet ca.rest "func" = some (.val v) → (∀ s, v ≠ .vstr s) →
      parseAndRun loadScalar expand fs schema fuel call importAttr ca =
        .error .invalidCallback) := by
  refine ⟨fun f hf => ?_, fun s g hf hres => ?_, fun v hf hv => ?_⟩
  · unfold parseAndRun
    rw [h]
    simp only []
    rw [hf]
  · unfold parseAndRun
    rw [h]
    simp only []
    rw [hf]
    simp only []
    rw [hres]
  · unfold parseAndRun
    rw [h]
    simp only []
    rw [hf]
    cases v with
    | vstr s => exact absurd rfl (hv s)
    | vnull => rfl
    | vbool b => rfl
    | vint n => rfl
    | vlist xs => rfl
    | vdict d => rfl

/-- Witness for C8: a registered callable callback is invoked on the final
configuration. -/
theorem C8_callback_dispatch_witness :
    parseAndRun (F := Nat) yamlScalarModel id
      (fun q => if q = "c.yaml" then some (.vdict [("a", Value.vint 1)])
        else none)
      none 1 (fun f _ => Value.vint f) (fun _ _ => none)
      ⟨"c.yaml", [], [("func", ArgVal.fn 7)]⟩ =
    .ok (Value.vint 7) :=
  (C8_callback_dispatch (F := Nat) yamlScalarModel id
    (fun q => if q = "c.yaml" then some (.vdict [("a", Value.vint 1)])
      else none)
    none 1 (fun f _ => Value.vint f) (fun _ _ => none)
    ⟨"c.yaml", [], [("func", ArgVal.fn 7)]⟩
    [("a", Entry.plain (Value.vint 1)),
     ("cmd_args", Entry.args ⟨"c.yaml", [], [("func", ArgVal.fn 7)]⟩)]
    rfl).1 7 rfl

theorem configurator_setPath_cons_cons (d : List (String × Value))
    (part r : String) (rs : List String) (v : Value) :
    Configurator.setPath (.vdict d) (part :: r :: rs) v =
      match dictGet d part with
      | some child =>
        (Configurator.setPath child (r :: rs) v).map
          (fun c => Value.vdict (dictSet d part c))
      | none => .error .keyError := rfl

theorem configurator_setPath_eq (parts : List String) (config v : Value) :
    Configurator.setPath config parts v = Specparse.setPath config parts v := by
  induction parts generalizing config with
  | nil => rfl
  | cons part rest ih =>
    cases rest with
    | nil => rfl
    | cons r rs =>
      cases config with
      | vdict d =>
        rw [configurator_setPath_cons_cons, Specparse.setPath_cons_cons]
        cases hg : dictGet d part with
        | none => simp only []
        | some child =>
          simp only []
          rw [ih child]
      | vnull => rfl
      | vbool b => rfl
      | vint n => rfl
      | vstr s => rfl
      | vlist xs => rfl

theorem configurator_changes_cons (ls : String → Value) (config : Value)
    (c : String) (rest : List String) :
    Configurator.makeConfigChanges ls config (c :: rest) =
      match (match Configurator.splitEq c with
             | .ok (path, value) =>
               Configurator.setPath config (pySplitStr '.' path) (ls value)
             | .error e => .error e : Except Err Value) with
      | .ok config' => Configurator.makeConfigChanges ls config' rest
      | .error e => .error e := rfl

theorem configurator_makeConfigChanges_eq (ls : String → Value)
    (config : Value) (changes : List String) :
    Configurator.makeConfigChanges ls config changes =
      Specparse.makeConfigChanges ls config changes := by
  induction changes generalizing config with
  | nil => rfl
  | cons c cs ih =>
    rw [configurator_changes_cons, Specparse.makeConfigChanges_cons]
    have hinner : (match Configurator.splitEq c with
        | .ok (path, value) =>
          Configurator.setPath config (pySplitStr '.' path) (ls value)
        | .error e => .error e : Except Err Value) =
        Specparse.makeConfigChange ls config c := by
      unfold Specparse.makeConfigChange
      rw [show Configurator.splitEq = Specparse.splitEq from rfl]
      cases Specparse.splitEq c with
      | ok pv =>
        obtain ⟨path, value⟩ := pv
        simp only []
        exact configurator_setPath_eq _ _ _
      | error e => rfl
    rw [hinner]
    cases Specparse.makeConfigChange ls config c with
    | ok c' =>
      simp only []
      exact ih c'
    | error e => simp only []

theorem configurator_mergeRecursively_eq
    (config changes : List (String × Value)) :
    Configurator.mergeRecursively config changes =
      Specparse.mergeRecursively config changes := by
  induction config, changes using Specparse.mergeRecursively.induct with
  | case1 config =>
    rw [Specparse.mergeRecursively.eq_1, Configurator.mergeRecursively.eq_1]
  | case2 config key rest cv bv hg ih1 ih2 =>
    rw [Configurator.mergeRecursively.eq_2 config key rest cv bv hg,
      Specparse.mergeRecursively.eq_2 config key rest cv bv hg, ih1, ih2]
  | case3 config key value rest hne ih =>
    rw [Configurator.mergeRecursively.eq_3 config key rest value hne,
      Specparse.mergeRecursively.eq_3 config key rest value hne, ih]

theorem configurator_readConfig_eq (expand : String → String)
    (fs : String → Option Value) (fuel : Nat) (doc : Value) :
    Configurator.readConfig expand fs fuel doc =
      Specparse.readConfig expand fs fuel doc := by
  induction fuel generalizing doc with
  | zero => rfl
  | succ n ih =>
    cases doc with
    | vdict entries =>
      rw [Configurator.readConfig, Specparse.readConfig]
      cases hp : dictGet entries "parent" with
      | none => simp only []
      | some pv =>
        cases pv with
        | vstr p =>
          simp only []
          cases hf : fs (expand p) with
          | none => simp only []
          | some parentDoc =>
            simp only []
            rw [ih parentDoc]
            cases hr : Specparse.readConfig expand fs n parentDoc with
            | error e => simp only []
            | ok w =>
              cases w with
              | vdict anc =>
                simp only []
                rw [configurator_mergeRecursively_eq]
              | vnull => simp only []
              | vbool b => simp only []
              | vint m => simp only []
              | vstr s => simp only []
              | vlist xs => simp only []
        | vnull => simp only []
        | vbool b => simp only []
        | vint m => simp only []
        | vlist xs => simp only []
        | vdict d2 => simp only []
    | vstr s => rfl
    | vlist xs => rfl
    | vnull => rfl
    | vbool b => rfl
    | vint m => rfl

/-- Claim C9: the two implementations in the repository are behaviorally
equivalent on the core operations: the merger, the loader, and the override
applier of `ConfigurationParser` compute exactly the same result (same tree
or same failure) as those of `SpecificationParser` on every input. -/
theorem C9_implementations_equivalent :
    (∀ config changes : List (String × Value),
      Configurator.mergeRecursively config changes =
        Specparse.mergeRecursively config changes) ∧
    (∀ (expand : String → String) (fs : String → Option Value)
        (fuel : Nat) (doc : Value),
      Configurator.readConfig expand fs fuel doc =
        Specparse.readConfig expand fs fuel doc) ∧
    (∀ (loadScalar : String → Value) (config : Value)
        (changes : List String),
      Configurator.makeConfigChanges loadScalar config changes =
        Specparse.makeConfigChanges loadScalar config changes) :=
  ⟨configurator_mergeRecursively_eq, configurator_readConfig_eq,
   configurator_makeConfigChanges_eq⟩
